import Mathlib

/-
Verification of the zk-optimized sparse Merkle tree engine
(src/zk-optimized-sparse-merkle-tree.ts, src/utils.ts).

The embedding models the big-number mode of the tree: hashes and keys are
natural numbers, ZERO is 0.  JavaScript objects (`Node` arrays) are modelled
by a heap: every node object receives a fresh identifier, its mutable
contents (the pair of child hashes) live in an association list keyed by the
identifier, and the JavaScript `Map<Node, ChildNodes>` keyed by object
identity becomes an association list from identifiers to pairs of
identifiers.  In-place mutation of a node (`nodesOnPath[i][path[i]] = ...`)
becomes an overwrite of the heap entry of that identifier, so aliasing
behaves exactly as in the source: every holder of the identifier sees the
new contents.
-/

namespace SMTree

/-- Errors raised by the engine (section 7 of the spec). -/
inductive Err where
  | keyTooLarge
  | invariantViolation
  | reservedValue
  | typeMismatch
  deriving DecidableEq, Repr

/-- Result of an engine operation: a value or a raised error. -/
inductive Outcome (α : Type) where
  | ok (a : α)
  | err (e : Err)
  deriving DecidableEq, Repr

/-- State of a `SparseMerkleTree` instance.
`heap` maps a node object's identifier to its current contents (the two
hash components); `nmap` is `this.nodes`, keyed by object identity;
`root` is the identifier of the object held by `this.root`;
`next` is the next fresh identifier. -/
structure SMT where
  depth : Nat
  heap : List (Nat × Nat × Nat)
  nmap : List (Nat × Nat × Nat)
  root : Nat
  next : Nat
  deriving DecidableEq, Repr

/-- Read a component of a node pair: `false` = index 0 (left),
`true` = index 1 (right). -/
def comp (p : Nat × Nat) (b : Bool) : Nat :=
  if b then p.2 else p.1

/-- Overwrite one component of a node pair. -/
def compSet (p : Nat × Nat) (b : Bool) (v : Nat) : Nat × Nat :=
  if b then (p.1, v) else (v, p.2)

/-- Contents of the object with identifier `i` (a missing identifier reads
as a zero node; the engine only reads identifiers it has allocated). -/
def hget (heap : List (Nat × Nat × Nat)) (i : Nat) : Nat × Nat :=
  (heap.lookup i).getD (0, 0)

/-- Overwrite the contents of object `i` (newest binding shadows). -/
def hset (heap : List (Nat × Nat × Nat)) (i : Nat) (v : Nat × Nat) :
    List (Nat × Nat × Nat) :=
  (i, v) :: heap

/-- In-place update of one component of node object `i`
(`obj[b] = v` in the source). -/
def writeComp (s : SMT) (i : Nat) (b : Bool) (v : Nat) : SMT :=
  { s with heap := hset s.heap i (compSet (hget s.heap i) b v) }

/-- Allocate a fresh node object with the given contents, returning the
new state and the identifier. -/
def alloc (s : SMT) (v : Nat × Nat) : SMT × Nat :=
  ({ s with heap := hset s.heap s.next v, next := s.next + 1 }, s.next)

/-- The wrapped hash combinator (constructor, lines 79-82):
`x === zero ? y : y === zero ? x : H(x, y)`. -/
def combine (H : Nat → Nat → Nat) (x y : Nat) : Nat :=
  if x = 0 then y else if y = 0 then x else H x y

/-- Binary digits of a natural number, least significant first, with a
fuel argument to make the recursion structural; the fuel is sufficient
whenever `n ≤ f`. -/
def natBitsRevF : Nat → Nat → List Bool
  | _, 0 => []
  | 0, _ + 1 => []
  | f + 1, n + 1 => ((n + 1) % 2 == 1) :: natBitsRevF f ((n + 1) / 2)

/-- Binary digits of a natural number, least significant first
(`[]` for 0).  Mirrors the digit stream of `toString(2)`. -/
def natBitsRev (n : Nat) : List Bool :=
  natBitsRevF n n

/-- `key.toString(2)` as a list of bits, most significant first
(`0` renders as the single digit "0"). -/
def natBits (n : Nat) : List Bool :=
  if n = 0 then [false] else (natBitsRev n).reverse

/-- `keyToPath` (lines 276-284), big-number mode: take the binary digits,
fail if there are more than `depth`, else left-pad with zeros
(`padStart(depth, "0")`) and map most-significant-first to directions. -/
def keyToPath (depth : Nat) (key : Nat) : Outcome (List Bool) :=
  let bits := natBits key
  if depth < bits.length then .err .keyTooLarge
  else .ok (List.replicate (depth - bits.length) false ++ bits)

/-- The four bits of one hex digit, most significant first
(`Number(c).toString(2).padStart(4, "0")` in utils.ts). -/
def bits4 (d : Fin 16) : List Bool :=
  [d.1.testBit 3, d.1.testBit 2, d.1.testBit 1, d.1.testBit 0]

/-- `hexToBin` (utils.ts, lines 6-14): the first hex digit is rendered
without padding, every further digit is zero-padded to 4 bits. -/
def hexToBin (d0 : Fin 16) (ds : List (Fin 16)) : List Bool :=
  natBits d0.1 ++ ds.flatMap bits4

/-- `keyToPath` in hexadecimal-string mode, for a key with first digit
`d0` and remaining digits `ds`. -/
def keyToPathHex (depth : Nat) (d0 : Fin 16) (ds : List (Fin 16)) :
    Outcome (List Bool) :=
  let bits := hexToBin d0 ds
  if depth < bits.length then .err .keyTooLarge
  else .ok (List.replicate (depth - bits.length) false ++ bits)

/-- Numeric value of a hexadecimal key. -/
def hexVal (d0 : Fin 16) (ds : List (Fin 16)) : Nat :=
  ds.foldl (fun a d => 16 * a + d.1) d0.1

/-- Natural bit-length, fuelled like `natBitsRevF`. -/
def bitLenF : Nat → Nat → Nat
  | _, 0 => 0
  | 0, _ + 1 => 0
  | f + 1, n + 1 => bitLenF f ((n + 1) / 2) + 1

/-- Natural bit-length of a number (0 for 0). -/
def bitLen (n : Nat) : Nat :=
  bitLenF n n

/-- Value of a most-significant-first bit string. -/
def bitsVal (l : List Bool) : Nat :=
  l.foldl (fun a b => 2 * a + b.toNat) 0

/-- Value of a least-significant-first bit string. -/
def bitsValLE : List Bool → Nat
  | [] => 0
  | b :: t => b.toNat + 2 * bitsValLE t

/-- The loop of `retrieve` (lines 230-243).  Faithful to the source: the
loop variable `node` is initialized to the root and never reassigned inside
the loop body, so every iteration inspects the same object.  The loop runs
`depth` times; the path produced by `keyToPath` has exactly `depth` bits, so
we recurse over the path.  Arguments: current path suffix, `foundZeroNode`,
current `valueHash`; result: final `valueHash` and the siblings list. -/
def retrieveLoop (s : SMT) (node : Nat) :
    List Bool → Bool → Nat → Nat × List Nat
  | [], _, vh => (vh, [])
  | b :: rest, fz, vh =>
    if fz then
      let r := retrieveLoop s node rest true vh
      (r.1, 0 :: r.2)
    else
      match s.nmap.lookup node with
      | none =>
        let r := retrieveLoop s node rest true vh
        (r.1, 0 :: r.2)
      | some _ =>
        let sib := comp (hget s.heap node) (!b)
        let vh' := if rest.isEmpty then comp (hget s.heap node) b else vh
        let r := retrieveLoop s node rest false vh'
        (r.1, sib :: r.2)

/-- `retrieve` (lines 222-245): compute the path (which may raise
`KeyTooLargeError`) and run the walk from the root. -/
def retrieve (s : SMT) (key : Nat) : Outcome (Nat × List Nat) :=
  match keyToPath s.depth key with
  | .err e => .err e
  | .ok path => .ok (retrieveLoop s s.root path false 0)

/-- `get` (lines 95-99): returns the `valueHash` of `retrieve`; the state
component of the result is the tree after the call. -/
def get (s : SMT) (key : Nat) : Outcome Nat × SMT :=
  (match retrieve s key with
   | .err e => .err e
   | .ok r => .ok r.1, s)

/-- The `nodesOnPath` walk of `update` (lines 126-133): descend through
`this.nodes` along the path, collecting the materialized nodes, stopping at
the first identifier absent from the map. -/
def walk (s : SMT) : List Bool → Nat → List Nat
  | [], _ => []
  | b :: bs, n =>
    match s.nmap.lookup n with
    | none => []
    | some c => n :: walk s bs (if b then c.2 else c.1)

/-- One pruning iteration of the removal loop of `update` (lines 142-148),
processing `nodesOnPath` from the deepest entry upward; the argument list
`n :: rest` is the remaining reversed `nodesOnPath`, so `n` sits at index
`rest.length` and the head of `rest` is its parent.  Pop `n`, delete it
from the map, reset the root to a fresh zero node if the map became empty,
and zero the parent's child slot (`path[i-1]`). -/
def pruneStep (p : List Bool) (st : SMT) (n : Nat) (rest : List Nat) :
    SMT :=
  let nmap' := st.nmap.filter (fun e => e.1 != n)
  let st1 := { st with nmap := nmap' }
  let st2 :=
    if nmap'.isEmpty then
      { st1 with heap := hset st1.heap st1.next (0, 0),
                 root := st1.next, next := st1.next + 1 }
    else st1
  match rest with
  | [] => st2
  | m :: rest2 => writeComp st2 m (p.getD rest2.length false) 0

/-- The removal loop itself: while the sibling component of the deepest
remaining node is zero, apply `pruneStep` and continue upward; stop at the
first nonzero sibling.  Returns the final state together with the remaining
(still reversed) `nodesOnPath`. -/
def prune (p : List Bool) : SMT → List Nat → SMT × List Nat
  | st, [] => (st, [])
  | st, n :: rest =>
    if comp (hget st.heap n) (!(p.getD rest.length false)) = 0 then
      prune p (pruneStep p st n rest) rest
    else (st, n :: rest)

/-- One iteration of the final re-hash loop (lines 171-174): re-combine the
child selected by the path bit and write it into this node's component.
The source casts the map lookup as non-null; an absent entry (unreachable
in engine-produced states) leaves the state unchanged. -/
def rehashStep (H : Nat → Nat → Nat) (p : List Bool) (nop : List Nat)
    (i : Nat) (st : SMT) : SMT :=
  match nop.get? i with
  | none => st
  | some n =>
    match st.nmap.lookup n with
    | none => st
    | some c =>
      let child := if p.getD i false then c.2 else c.1
      let ch := hget st.heap child
      writeComp st n (p.getD i false) (combine H ch.1 ch.2)

/-- The re-hash loop (lines 170-174), run for indices `k, k-1, ..., 0`;
invoked with `k = nodesOnPath.length - 2` when that length is at least 2. -/
def rehash (H : Nat → Nat → Nat) (p : List Bool) (nop : List Nat) :
    Nat → SMT → SMT
  | 0, st => rehashStep H p nop 0 st
  | k + 1, st => rehash H p nop k (rehashStep H p nop (k + 1) st)

/-- One iteration of the bottom-up build of the insertion branch
(lines 155-161): allocate the fresh zero node, order the children by the
path bit (`1-path[i] ? [newNode, zero] : [zero, newNode]`), allocate the
new parent with both children's combined hashes, record it in the map, and
update the root when `i = 0`. -/
def insertStep (H : Nat → Nat → Nat) (p : List Bool) (i : Nat) (st : SMT)
    (cur : Nat) : SMT × Nat :=
  let az := alloc st (0, 0)
  let c : Nat × Nat := if p.getD i false then (az.2, cur) else (cur, az.2)
  let h0 := hget az.1.heap c.1
  let h1 := hget az.1.heap c.2
  let an := alloc az.1 (combine H h0.1 h0.2, combine H h1.1 h1.2)
  let st3 := { an.1 with nmap := (an.2, c) :: an.1.nmap }
  let st4 := if i = 0 then { st3 with root := an.2 } else st3
  (st4, an.2)

/-- The insertion loop (lines 155-161), for `i` from `path.length - 1`
down to `nodesOnPath.length = L`. -/
def insertLoop (H : Nat → Nat → Nat) (p : List Bool) (L : Nat) :
    Nat → SMT → Nat → SMT × Nat
  | 0, st, cur => if 0 < L then (st, cur) else insertStep H p 0 st cur
  | i + 1, st, cur =>
    if i + 1 < L then (st, cur)
    else
      let r := insertStep H p (i + 1) st cur
      insertLoop H p L i r.1 r.2

/-- `update` (lines 118-177).  In big-number mode `assertType` always
succeeds.  The result pairs the outcome with the tree state after the call;
the source raises its errors before any mutation, which the threading makes
explicit. -/
def update (H : Nat → Nat → Nat) (s : SMT) (key v : Nat) :
    Outcome Unit × SMT :=
  match retrieve s key with
  | .err e => (.err e, s)
  | .ok r =>
    if r.1 = v then (.ok (), s)
    else
      match keyToPath s.depth key with
      | .err e => (.err e, s)
      | .ok p =>
        let nop := walk s p s.root
        if v = 0 then
          if nop.length = p.length then (.err .invariantViolation, s)
          else
            let pr := prune p s nop.reverse
            let nop2 := pr.2.reverse
            let st2 :=
              if 2 ≤ nop2.length then
                rehash H p nop2 (nop2.length - 2) pr.1
              else pr.1
            (.ok (), st2)
        else
          let a1 := alloc s (v, 0)
          let r2 := insertLoop H p nop.length (p.length - 1) a1.1 a1.2
          let s3 :=
            match nop.getLast? with
            | none => r2.1
            | some m =>
              writeComp r2.1 m (p.getD (nop.length - 1) false)
                (combine H (hget r2.1.heap r2.2).1 (hget r2.1.heap r2.2).2)
          let s4 :=
            if 2 ≤ nop.length then rehash H p nop (nop.length - 2) s3
            else s3
          (.ok (), s4)

/-- `add` (lines 106-109): reject a zero value hash, else delegate. -/
def add (H : Nat → Nat → Nat) (s : SMT) (key v : Nat) :
    Outcome Unit × SMT :=
  if v = 0 then (.err .reservedValue, s) else update H s key v

/-- `delete` (lines 183-185): `update(key, zero)`. -/
def delete (H : Nat → Nat → Nat) (s : SMT) (key : Nat) :
    Outcome Unit × SMT :=
  update H s key 0

/-- A membership / non-membership proof (types.ts). -/
structure MerkleProof where
  valueHash : Nat
  rootHash : Nat
  key : Nat
  siblings : List Nat
  deriving DecidableEq, Repr

/-- `createProof` (lines 193-199). -/
def createProof (H : Nat → Nat → Nat) (s : SMT) (key : Nat) :
    Outcome MerkleProof × SMT :=
  (match retrieve s key with
   | .err e => .err e
   | .ok r =>
     .ok ⟨r.1, combine H (hget s.heap s.root).1 (hget s.heap s.root).2,
          key, r.2⟩, s)

/-- The fold of `verifyProof` (lines 209-211): siblings are consumed from
index 0, but the combination at the deepest index is applied first, so the
recursion places index 0 outermost.  When the path is shorter than the
siblings list, `path[i]` is `undefined`, which is falsy. -/
def verifyFold (H : Nat → Nat → Nat) :
    List Bool → List Nat → Nat → Nat
  | _, [], h => h
  | p, sib :: rest, h =>
    let inner := verifyFold H (p.drop 1) rest h
    if p.headD false then combine H sib inner else combine H inner sib

/-- `verifyProof` (lines 206-213). -/
def verifyProof (H : Nat → Nat → Nat) (s : SMT) (pf : MerkleProof) :
    Outcome Bool :=
  match keyToPath s.depth pf.key with
  | .err e => .err e
  | .ok p => .ok (verifyFold H p pf.siblings pf.valueHash == pf.rootHash)

/-- A freshly constructed tree (constructor, line 85): the root object is
a zero node, the map is empty. -/
def freshSMT (depth : Nat) : SMT :=
  { depth := depth, heap := [(0, (0, 0))], nmap := [], root := 0, next := 1 }

/-- Contents of the root object (`this.root` read as a pair of hashes). -/
def rootC (s : SMT) : Nat × Nat :=
  hget s.heap s.root

/-- One public operation, for reachability statements. -/
inductive Op where
  | add (k v : Nat)
  | upd (k v : Nat)
  | del (k : Nat)
  | get (k : Nat)
  | prf (k : Nat)
  deriving DecidableEq, Repr

/-- The state after one public operation. -/
def stepOp (H : Nat → Nat → Nat) (s : SMT) : Op → SMT
  | .add k v => (add H s k v).2
  | .upd k v => (update H s k v).2
  | .del k => (delete H s k).2
  | .get k => (get s k).2
  | .prf k => (createProof H s k).2

/-- The state after a sequence of public operations. -/
def runOps (H : Nat → Nat → Nat) (ops : List Op) (s : SMT) : SMT :=
  ops.foldl (stepOp H) s

/-- A concrete injective-on-small-inputs hash function for tests. -/
def Hc : Nat → Nat → Nat := fun x y => 100 + 10 * x + y

/-- The constant-zero hash function: a valid constructor argument in
big-number mode (it returns a big number). -/
def H0 : Nat → Nat → Nat := fun _ _ => 0

/-- Depth-2 tree after `add(1, 2)` from fresh. -/
def sAdd12 : SMT := (add Hc (freshSMT 2) 1 2).2

/-- Depth-1 tree after `add(1, 2)` from fresh. -/
def sD1 : SMT := (add Hc (freshSMT 1) 1 2).2

end SMTree

namespace SMTree

/-- Claim C1 (code_bug): after the single operation `add(1, 2)` on an empty
depth-2 tree, `get(1)` returns 0 instead of the most recently written value
hash 2.  The loop of `retrieve` never reassigns its `node` variable, so it
reads the final component from the root object. -/
theorem c1_get_returns_stale_zero :
    (add Hc (freshSMT 2) 1 2).1 = .ok () ∧
    sAdd12 = (add Hc (freshSMT 2) 1 2).2 ∧
    (get sAdd12 1).1 = .ok 0 ∧ (get sAdd12 1).1 ≠ .ok 2 := by
  refine ⟨rfl, rfl, rfl, ?_⟩
  decide

/-- Claim C2 (code_bug): in the reachable depth-2 tree holding key 1, the
proof created for the absent key 3 does not verify: `retrieve` collects the
root's own components as siblings at every level, and the fold over the two
nonzero siblings produces `H(2, 2) = 122`, not the root hash 2. -/
theorem c2_createProof_fails_verification :
    (match (createProof Hc sAdd12 3).1 with
     | .ok pf => verifyProof Hc sAdd12 pf
     | .err e => .err e) = .ok false := by
  decide

/-- Claim C3 (code_bug): on a depth-1 tree holding key 1, `delete(1)` walks
to full depth (the leaf genuinely exists, `nodesOnPath.length = depth`),
yet the engine raises the InvariantViolation; the guard on line 138 throws
exactly when the walk reached full depth, the opposite of the claim and of
the source's own comment on line 136. -/
theorem c3_delete_throws_on_existing_leaf :
    (delete Hc sD1 1).1 = .err .invariantViolation ∧
    (match keyToPath sD1.depth 1 with
     | .ok p => (walk sD1 p sD1.root).length = p.length
     | .err _ => False) := by
  exact ⟨rfl, rfl⟩

/-- Claim C4 (code_bug): key 1 is absent from the fresh depth-1 tree and
the value hash 2 is nonzero, yet `add(1, 2)` followed by `delete(1)` does
not restore the previous root: the delete raises InvariantViolation and
leaves the root at (0, 2), while the root before the add was (0, 0). -/
theorem c4_add_delete_does_not_restore_root :
    (get (freshSMT 1) 1).1 = .ok 0 ∧
    (add Hc (freshSMT 1) 1 2).1 = .ok () ∧
    sD1 = (add Hc (freshSMT 1) 1 2).2 ∧
    rootC (delete Hc sD1 1).2 = (0, 2) ∧
    rootC (freshSMT 1) = (0, 0) ∧
    rootC (delete Hc sD1 1).2 ≠ rootC (freshSMT 1) := by
  refine ⟨rfl, rfl, rfl, rfl, rfl, ?_⟩
  decide

/-- Claim C5, counterexample: the hexadecimal key "01" has numeric value 1,
whose natural bit-length 1 does not exceed the depth 4, yet `keyToPath`
fails with KeyTooLargeError because `hexToBin` renders the key with five
binary digits (the padding counts the leading zero hex digit). -/
theorem c5_hex_leading_zero_counterexample :
    keyToPathHex 4 0 [1] = .err .keyTooLarge ∧
    bitLen (hexVal 0 [1]) = 1 ∧ 1 ≤ 4 := by
  exact ⟨rfl, rfl, by omega⟩

/-- Claim C6 (confirmed): the wrapped combinator returns `y` when `x` is
ZERO, returns `x` when `y` is ZERO, delegates to the supplied `H`
otherwise, and in particular sends (ZERO, ZERO) to ZERO. -/
theorem c6_combine_zero_absorption (H : Nat → Nat → Nat) (x y : Nat) :
    combine H 0 y = y ∧ combine H x 0 = x ∧
    (x ≠ 0 → y ≠ 0 → combine H x y = H x y) ∧ combine H 0 0 = 0 := by
  refine ⟨rfl, ?_, fun hx hy => ?_, rfl⟩
  · unfold combine
    by_cases hx : x = 0 <;> simp [hx]
  · unfold combine
    simp [hx, hy]

/-- Witness for C6 at concrete inputs. -/
theorem c6_combine_zero_absorption_witness :
    (1 : Nat) ≠ 0 ∧ (2 : Nat) ≠ 0 ∧ combine Hc 1 2 = Hc 1 2 :=
  ⟨by decide, by decide,
   (c6_combine_zero_absorption Hc 1 2).2.2.1 (by decide) (by decide)⟩

/-- Claim C8 (confirmed): `add` fails with ReservedValueError exactly on a
ZERO value hash, leaving the state unchanged, and otherwise is literally
`update` applied to the same arguments. -/
theorem c8_add_reserved_and_delegation (H : Nat → Nat → Nat) (s : SMT)
    (k v : Nat) :
    (v = 0 → add H s k v = (.err .reservedValue, s)) ∧
    (v ≠ 0 → add H s k v = update H s k v) := by
  constructor
  · intro hv
    simp [add, hv]
  · intro hv
    simp [add, hv]

/-- Witness for C8 at concrete inputs. -/
theorem c8_add_reserved_and_delegation_witness :
    (add Hc (freshSMT 2) 1 0 = (.err .reservedValue, freshSMT 2)) ∧
    (add Hc (freshSMT 2) 1 2 = update Hc (freshSMT 2) 1 2) :=
  ⟨(c8_add_reserved_and_delegation Hc (freshSMT 2) 1 0).1 rfl,
   (c8_add_reserved_and_delegation Hc (freshSMT 2) 1 2).2 (by decide)⟩

/-- Claim C10 (confirmed): `get` and `createProof` leave the tree state —
root and every node-store entry — exactly as it was: both return the input
state unchanged, for every key and every state. -/
theorem c10_read_operations_pure (H : Nat → Nat → Nat) (s : SMT) (k : Nat) :
    (get s k).2 = s ∧ (createProof H s k).2 = s :=
  ⟨rfl, rfl⟩

end SMTree

namespace SMTree

/-- Every error raised by `update` precedes any mutation, so the state
component of the result is the input state. -/
theorem update_err_state (H : Nat → Nat → Nat) (s : SMT) (k v : Nat)
    (e : Err) (h : (update H s k v).1 = .err e) : (update H s k v).2 = s := by
  unfold update at h ⊢
  cases hr : retrieve s k with
  | err e1 => simp only [hr]
  | ok r =>
    simp only [hr] at h ⊢
    by_cases hv : r.1 = v
    · simp [hv] at h
    · simp only [if_neg hv] at h ⊢
      cases hp : keyToPath s.depth k with
      | err e2 => simp only [hp]
      | ok p =>
        simp only [hp] at h ⊢
        by_cases hz : v = 0
        · simp only [if_pos hz] at h ⊢
          by_cases hl : (walk s p s.root).length = p.length
          · simp only [if_pos hl]
          · simp only [if_neg hl] at h
            simp at h
        · simp only [if_neg hz] at h
          simp at h

/-- Claim C7 (confirmed): whenever a public operation reports an error, the
tree state (root object and node store) is exactly the input state; every
check of the engine precedes every mutation.  (`TypeMismatchError` cannot
arise in big-number mode, where every natural number is a valid key.) -/
theorem c7_errors_leave_state_unchanged (H : Nat → Nat → Nat) (s : SMT)
    (k v : Nat) (e : Err) :
    ((get s k).1 = .err e → (get s k).2 = s) ∧
    ((add H s k v).1 = .err e → (add H s k v).2 = s) ∧
    ((update H s k v).1 = .err e → (update H s k v).2 = s) ∧
    ((delete H s k).1 = .err e → (delete H s k).2 = s) ∧
    ((createProof H s k).1 = .err e → (createProof H s k).2 = s) := by
  refine ⟨fun _ => rfl, ?_, update_err_state H s k v e,
    update_err_state H s k 0 e, fun _ => rfl⟩
  intro h
  unfold add at h ⊢
  by_cases hv : v = 0
  · simp only [if_pos hv]
  · simp only [if_neg hv] at h ⊢
    exact update_err_state H s k v e h

/-- Witness for C7: the failing `delete` of C3 leaves the depth-1 tree
untouched. -/
theorem c7_errors_leave_state_unchanged_witness :
    (delete Hc sD1 1).2 = sD1 :=
  (c7_errors_leave_state_unchanged Hc sD1 1 0 .invariantViolation).2.2.2.1
    (by decide)

end SMTree

namespace SMTree

/-- With sufficient fuel, `natBitsRevF` lists the binary digits of `n`:
their little-endian value is `n`. -/
theorem natBitsRevF_val : ∀ f n, n ≤ f → bitsValLE (natBitsRevF f n) = n := by
  intro f
  induction f with
  | zero =>
    intro n hn
    have : n = 0 := Nat.le_zero.mp hn
    subst this
    rfl
  | succ f ih =>
    intro n hn
    match n with
    | 0 => rfl
    | m + 1 =>
      show bitsValLE (((m + 1) % 2 == 1) :: natBitsRevF f ((m + 1) / 2)) =
        m + 1
      rw [bitsValLE, ih ((m + 1) / 2) (by omega)]
      rcases Nat.mod_two_eq_zero_or_one (m + 1) with h | h <;>
        simp [h] <;> omega

/-- The fuel of `bitLenF` is irrelevant once sufficient. -/
theorem bitLenF_fuel : ∀ f n g, n ≤ f → n ≤ g → bitLenF f n = bitLenF g n := by
  intro f
  induction f with
  | zero =>
    intro n g hf _
    have : n = 0 := Nat.le_zero.mp hf
    subst this
    cases g <;> rfl
  | succ f ih =>
    intro n g hf hg
    match n with
    | 0 => cases g <;> rfl
    | m + 1 =>
      match g with
      | g' + 1 =>
        show bitLenF f ((m + 1) / 2) + 1 = bitLenF g' ((m + 1) / 2) + 1
        rw [ih ((m + 1) / 2) g' (by omega) (by omega)]

/-- With sufficient fuel, `natBitsRevF` produces exactly `bitLen n`
digits. -/
theorem natBitsRevF_len : ∀ f n, n ≤ f →
    (natBitsRevF f n).length = bitLen n := by
  intro f
  induction f with
  | zero =>
    intro n hn
    have : n = 0 := Nat.le_zero.mp hn
    subst this
    rfl
  | succ f ih =>
    intro n hn
    match n with
    | 0 => rfl
    | m + 1 =>
      show (((m + 1) % 2 == 1) :: natBitsRevF f ((m + 1) / 2)).length =
        bitLen (m + 1)
      rw [List.length_cons, ih ((m + 1) / 2) (by omega)]
      show bitLen ((m + 1) / 2) + 1 = bitLen (m + 1)
      unfold bitLen
      show bitLenF ((m + 1) / 2) ((m + 1) / 2) + 1 =
        bitLenF m ((m + 1) / 2) + 1
      rw [bitLenF_fuel ((m + 1) / 2) ((m + 1) / 2) m le_rfl (by omega)]

/-- Reversing a bit string swaps the two value readings. -/
theorem bitsVal_reverse : ∀ l : List Bool, bitsVal l.reverse = bitsValLE l := by
  intro l
  induction l with
  | nil => rfl
  | cons b t ih =>
    rw [List.reverse_cons]
    unfold bitsVal at ih ⊢
    rw [List.foldl_append, ih]
    show 2 * bitsValLE t + b.toNat = bitsValLE (b :: t)
    rw [bitsValLE]
    omega

/-- `natBits` is the most-significant-first binary representation: reading
it back as a binary numeral recovers the key. -/
theorem natBits_val (k : Nat) : bitsVal (natBits k) = k := by
  unfold natBits
  by_cases hk : k = 0
  · subst hk
    rfl
  · rw [if_neg hk, bitsVal_reverse]
    exact natBitsRevF_val k k le_rfl

/-- For a positive key, `natBits` has exactly the natural bit-length. -/
theorem natBits_len (k : Nat) (hk : 0 < k) :
    (natBits k).length = bitLen k := by
  unfold natBits
  rw [if_neg (Nat.pos_iff_ne_zero.mp hk), List.length_reverse]
  exact natBitsRevF_len k k le_rfl

/-- Accumulator form of `bitsVal`. -/
theorem bitsVal_from : ∀ (t : List Bool) (a : Nat),
    t.foldl (fun x b => 2 * x + b.toNat) a = a * 2 ^ t.length + bitsVal t := by
  intro t
  induction t with
  | nil => intro a; simp [bitsVal]
  | cons b t ih =>
    intro a
    show t.foldl (fun x b => 2 * x + b.toNat) (2 * a + b.toNat) =
      a * 2 ^ (b :: t).length + bitsVal (b :: t)
    rw [ih (2 * a + b.toNat)]
    have hb : bitsVal (b :: t) = b.toNat * 2 ^ t.length + bitsVal t := by
      show t.foldl (fun x b => 2 * x + b.toNat) (2 * 0 + b.toNat) =
        b.toNat * 2 ^ t.length + bitsVal t
      rw [ih (2 * 0 + b.toNat)]
      ring
    rw [hb, List.length_cons, pow_succ]
    ring

/-- Value of a concatenation of bit strings. -/
theorem bitsVal_append (xs ys : List Bool) :
    bitsVal (xs ++ ys) = bitsVal xs * 2 ^ ys.length + bitsVal ys := by
  unfold bitsVal
  rw [List.foldl_append]
  exact bitsVal_from ys _

/-- Each 4-bit group is the value of its hex digit. -/
theorem bits4_val : ∀ d : Fin 16, bitsVal (bits4 d) = d.1 := by decide

/-- The binary rendering of the hex tail reads back as base-16 folding. -/
theorem hexBind_val : ∀ (ds : List (Fin 16)) (bs : List Bool),
    bitsVal (bs ++ ds.flatMap bits4) =
      ds.foldl (fun a d => 16 * a + d.1) (bitsVal bs) := by
  intro ds
  induction ds with
  | nil => intro bs; simp
  | cons d ds ih =>
    intro bs
    rw [List.flatMap_cons, ← List.append_assoc, ih (bs ++ bits4 d)]
    have hv : bitsVal (bs ++ bits4 d) = 16 * bitsVal bs + d.1 := by
      rw [bitsVal_append, bits4_val]
      show bitsVal bs * 2 ^ (bits4 d).length + d.1 = 16 * bitsVal bs + d.1
      have : (bits4 d).length = 4 := rfl
      rw [this]
      ring
    rw [hv]
    rfl

/-- `hexToBin` is a binary representation of the key's numeric value. -/
theorem hexToBin_val (d0 : Fin 16) (ds : List (Fin 16)) :
    bitsVal (hexToBin d0 ds) = hexVal d0 ds := by
  unfold hexToBin hexVal
  rw [hexBind_val, natBits_val]

/-- Claim C5, amended (corrected): `keyToPath` produces the key's binary
representation left-padded with zeros to exactly D direction bits,
most-significant bit first (false = left, true = right), and fails with
KeyTooLargeError exactly when the length of that representation — the
binary digits of the big-number key, or the `hexToBin` rendering of the
hex key (first digit unpadded, four bits per further digit) — exceeds D.
For a positive big-number key this length is the natural bit-length, but
for hex keys with redundant leading zero digits it can exceed it. -/
theorem c5_keyToPath_characterization (D k : Nat) (d0 : Fin 16)
    (ds : List (Fin 16)) :
    (keyToPath D k = .err .keyTooLarge ↔ D < (natBits k).length) ∧
    ((natBits k).length ≤ D →
      keyToPath D k =
        .ok (List.replicate (D - (natBits k).length) false ++ natBits k)) ∧
    bitsVal (natBits k) = k ∧
    (0 < k → (natBits k).length = bitLen k) ∧
    (keyToPathHex D d0 ds = .err .keyTooLarge ↔
      D < (hexToBin d0 ds).length) ∧
    ((hexToBin d0 ds).length ≤ D →
      keyToPathHex D d0 ds =
        .ok (List.replicate (D - (hexToBin d0 ds).length) false ++
          hexToBin d0 ds)) ∧
    bitsVal (hexToBin d0 ds) = hexVal d0 ds := by
  refine ⟨?_, ?_, natBits_val k, natBits_len k, ?_, ?_, hexToBin_val d0 ds⟩
  · unfold keyToPath
    by_cases hD : D < (natBits k).length
    · simp [hD]
    · simp [hD]
  · intro hD
    unfold keyToPath
    rw [if_neg (by omega)]
  · unfold keyToPathHex
    by_cases hD : D < (hexToBin d0 ds).length
    · simp [hD]
    · simp [hD]
  · intro hD
    unfold keyToPathHex
    rw [if_neg (by omega)]

/-- Witness for C5 at concrete inputs: big-number key 5 at depth 8, hex
key "12" at depth 8. -/
theorem c5_keyToPath_characterization_witness :
    ((natBits 5).length ≤ 8 ∧
      keyToPath 8 5 =
        .ok (List.replicate (8 - (natBits 5).length) false ++ natBits 5)) ∧
    (0 < 5 ∧ (natBits 5).length = bitLen 5) ∧
    ((hexToBin 1 [2]).length ≤ 8 ∧
      keyToPathHex 8 1 [2] =
        .ok (List.replicate (8 - (hexToBin 1 [2]).length) false ++
          hexToBin 1 [2])) :=
  ⟨⟨by decide, (c5_keyToPath_characterization 8 5 1 [2]).2.1 (by decide)⟩,
   ⟨by decide, (c5_keyToPath_characterization 8 5 1 [2]).2.2.2.1 (by decide)⟩,
   ⟨by decide, (c5_keyToPath_characterization 8 5 1 [2]).2.2.2.2.2.1
     (by decide)⟩⟩

end SMTree

namespace SMTree

theorem hget_cons_self (heap : List (Nat × Nat × Nat)) (i : Nat)
    (v : Nat × Nat) : hget ((i, v) :: heap) i = v := by
  simp [hget, List.lookup]

theorem hget_cons_ne (heap : List (Nat × Nat × Nat)) (i j : Nat)
    (v : Nat × Nat) (h : j ≠ i) : hget ((i, v) :: heap) j = hget heap j := by
  simp [hget, List.lookup, beq_false_of_ne h]

theorem compSet_zero_zero (b : Bool) : compSet (0, 0) b 0 = (0, 0) := by
  cases b <;> rfl

theorem pruneStep_nmap (p : List Bool) (st : SMT) (n : Nat)
    (rest : List Nat) :
    (pruneStep p st n rest).nmap = st.nmap.filter (fun e => e.1 != n) := by
  unfold pruneStep
  cases rest <;>
    by_cases he : (st.nmap.filter (fun e => e.1 != n)).isEmpty <;>
      simp [he, writeComp]

theorem pruneStep_pres (p : List Bool) (st : SMT) (n : Nat)
    (rest : List Nat) (h : (pruneStep p st n rest).nmap = []) :
    rootC (pruneStep p st n rest) = (0, 0) := by
  have hfil : st.nmap.filter (fun e => e.1 != n) = [] := by
    rw [← pruneStep_nmap p st n rest]
    exact h
  have he : (st.nmap.filter (fun e => e.1 != n)).isEmpty = true := by
    rw [hfil]
    rfl
  unfold pruneStep
  simp only [he, if_true]
  cases rest with
  | nil =>
    simp only [rootC, hset]
    exact hget_cons_self _ _ _
  | cons m rest2 =>
    simp only [writeComp, rootC, hset]
    by_cases hm : st.next = m
    · subst hm
      rw [hget_cons_self]
      rw [hget_cons_self]
      exact compSet_zero_zero _
    · rw [hget_cons_ne _ _ _ _ hm]
      exact hget_cons_self _ _ _

end SMTree

namespace SMTree

theorem prune_pres (p : List Bool) : ∀ (l : List Nat) (st : SMT),
    (st.nmap = [] → rootC st = (0, 0)) →
    ((prune p st l).1.nmap = [] → rootC (prune p st l).1 = (0, 0)) := by
  intro l
  induction l with
  | nil =>
    intro st h
    exact h
  | cons n rest ih =>
    intro st h
    rw [prune]
    by_cases hs : comp (hget st.heap n) (!(p.getD rest.length false)) = 0
    · rw [if_pos hs]
      exact ih (pruneStep p st n rest) (pruneStep_pres p st n rest)
    · rw [if_neg hs]
      exact h

theorem rehashStep_nmap (H : Nat → Nat → Nat) (p : List Bool)
    (nop : List Nat) (i : Nat) (st : SMT) :
    (rehashStep H p nop i st).nmap = st.nmap := by
  unfold rehashStep
  split
  · rfl
  · split
    · rfl
    · rfl

theorem rehash_nmap (H : Nat → Nat → Nat) (p : List Bool) (nop : List Nat) :
    ∀ (k : Nat) (st : SMT), (rehash H p nop k st).nmap = st.nmap := by
  intro k
  induction k with
  | zero => intro st; exact rehashStep_nmap H p nop 0 st
  | succ k ih =>
    intro st
    rw [rehash, ih, rehashStep_nmap]

theorem rehashStep_empty (H : Nat → Nat → Nat) (p : List Bool)
    (nop : List Nat) (i : Nat) (st : SMT) (h : st.nmap = []) :
    rehashStep H p nop i st = st := by
  unfold rehashStep
  split
  · rfl
  · rw [h]
    rfl

theorem rehash_empty (H : Nat → Nat → Nat) (p : List Bool) (nop : List Nat) :
    ∀ (k : Nat) (st : SMT), st.nmap = [] → rehash H p nop k st = st := by
  intro k
  induction k with
  | zero => intro st h; exact rehashStep_empty H p nop 0 st h
  | succ k ih =>
    intro st h
    rw [rehash, rehashStep_empty H p nop _ st h, ih st h]

theorem walk_nil (s : SMT) (h : s.nmap = []) :
    ∀ (p : List Bool) (n : Nat), walk s p n = [] := by
  intro p n
  cases p with
  | nil => rfl
  | cons b bs =>
    rw [walk, h]
    rfl

theorem insertStep_nmap_ne (H : Nat → Nat → Nat) (p : List Bool) (i : Nat)
    (st : SMT) (cur : Nat) : (insertStep H p i st cur).1.nmap ≠ [] := by
  unfold insertStep alloc
  by_cases hi : i = 0 <;> simp [hi]

theorem insertLoop_nmap (H : Nat → Nat → Nat) (p : List Bool) (L : Nat) :
    ∀ (i : Nat) (st : SMT) (cur : Nat),
    (insertLoop H p L i st cur).1.nmap = [] → st.nmap = [] ∧ i < L := by
  intro i
  induction i with
  | zero =>
    intro st cur h
    rw [insertLoop] at h
    by_cases hL : 0 < L
    · rw [if_pos hL] at h
      exact ⟨h, hL⟩
    · rw [if_neg hL] at h
      exact absurd h (insertStep_nmap_ne H p 0 st cur)
  | succ i ih =>
    intro st cur h
    rw [insertLoop] at h
    by_cases hL : i + 1 < L
    · rw [if_pos hL] at h
      exact ⟨h, hL⟩
    · rw [if_neg hL] at h
      obtain ⟨h1, _⟩ := ih _ _ h
      exact absurd h1 (insertStep_nmap_ne H p (i + 1) st cur)

end SMTree

namespace SMTree

theorem update_pres (H : Nat → Nat → Nat) (s : SMT) (k v : Nat)
    (hP : s.nmap = [] → rootC s = (0, 0)) :
    (update H s k v).2.nmap = [] → rootC (update H s k v).2 = (0, 0) := by
  unfold update
  cases hr : retrieve s k with
  | err e =>
    simp only [hr]
    exact hP
  | ok r =>
    simp only [hr]
    by_cases hv : r.1 = v
    · simp only [if_pos hv]
      exact hP
    · simp only [if_neg hv]
      cases hp : keyToPath s.depth k with
      | err e =>
        simp only [hp]
        exact hP
      | ok p =>
        simp only [hp]
        by_cases hz : v = 0
        · simp only [if_pos hz]
          by_cases hl : (walk s p s.root).length = p.length
          · simp only [if_pos hl]
            exact hP
          · simp only [if_neg hl]
            intro h
            by_cases h2 :
                2 ≤ (prune p s (walk s p s.root).reverse).2.reverse.length
            · simp only [if_pos h2] at h ⊢
              have hm : (prune p s (walk s p s.root).reverse).1.nmap = [] := by
                rw [← rehash_nmap H p
                  (prune p s (walk s p s.root).reverse).2.reverse
                  ((prune p s (walk s p s.root).reverse).2.reverse.length - 2)
                  (prune p s (walk s p s.root).reverse).1]
                exact h
              rw [rehash_empty H p _ _ _ hm]
              exact prune_pres p _ s hP hm
            · simp only [if_neg h2] at h ⊢
              exact prune_pres p _ s hP h
        · simp only [if_neg hz]
          intro h
          exfalso
          have h3 :
              (match (walk s p s.root).getLast? with
               | none =>
                 (insertLoop H p (walk s p s.root).length (p.length - 1)
                   (alloc s (v, 0)).1 (alloc s (v, 0)).2).1
               | some m =>
                 writeComp
                   (insertLoop H p (walk s p s.root).length (p.length - 1)
                     (alloc s (v, 0)).1 (alloc s (v, 0)).2).1 m
                   (p.getD ((walk s p s.root).length - 1) false)
                   (combine H
                     (hget (insertLoop H p (walk s p s.root).length
                       (p.length - 1) (alloc s (v, 0)).1
                       (alloc s (v, 0)).2).1.heap
                       (insertLoop H p (walk s p s.root).length (p.length - 1)
                         (alloc s (v, 0)).1 (alloc s (v, 0)).2).2).1
                     (hget (insertLoop H p (walk s p s.root).length
                       (p.length - 1) (alloc s (v, 0)).1
                       (alloc s (v, 0)).2).1.heap
                       (insertLoop H p (walk s p s.root).length (p.length - 1)
                         (alloc s (v, 0)).1
                         (alloc s (v, 0)).2).2).2)).nmap = [] := by
            by_cases hL : 2 ≤ (walk s p s.root).length
            · simp only [if_pos hL] at h
              rw [← rehash_nmap H p (walk s p s.root)
                ((walk s p s.root).length - 2)]
              exact h
            · simp only [if_neg hL] at h
              exact h
          have hr2 :
              (insertLoop H p (walk s p s.root).length (p.length - 1)
                (alloc s (v, 0)).1 (alloc s (v, 0)).2).1.nmap = [] := by
            cases hg : (walk s p s.root).getLast? with
            | none =>
              simp only [hg] at h3
              exact h3
            | some m =>
              simp only [hg] at h3
              exact h3
          obtain ⟨ha, hlt⟩ :=
            insertLoop_nmap H p (walk s p s.root).length (p.length - 1)
              (alloc s (v, 0)).1 (alloc s (v, 0)).2 hr2
          have hw : walk s p s.root = [] := walk_nil s ha p s.root
          rw [hw] at hlt
          exact Nat.not_lt_zero _ hlt

end SMTree

namespace SMTree

theorem stepOp_pres (H : Nat → Nat → Nat) (s : SMT) (op : Op)
    (hP : s.nmap = [] → rootC s = (0, 0)) :
    (stepOp H s op).nmap = [] → rootC (stepOp H s op) = (0, 0) := by
  cases op with
  | add k v =>
    by_cases hv : v = 0
    · have he : stepOp H s (.add k v) = s := by
        show (add H s k v).2 = s
        unfold add
        rw [if_pos hv]
      rw [he]
      exact hP
    · have he : stepOp H s (.add k v) = (update H s k v).2 := by
        show (add H s k v).2 = _
        unfold add
        rw [if_neg hv]
      rw [he]
      exact update_pres H s k v hP
  | upd k v => exact update_pres H s k v hP
  | del k => exact update_pres H s k 0 hP
  | get k => exact hP
  | prf k => exact hP

/-- Claim C9, amended (corrected): in every state reachable from a freshly
constructed tree by public operations, if the node store is empty then the
root is exactly (ZERO, ZERO).  The converse direction of the original
claim fails: a hash function that returns ZERO on nonzero inputs (accepted
by the constructor) can drive the root of a nonempty tree to (ZERO, ZERO),
see the counterexample. -/
theorem c9_empty_store_implies_zero_root (H : Nat → Nat → Nat) (D : Nat)
    (ops : List Op) :
    (runOps H ops (freshSMT D)).nmap = [] →
      rootC (runOps H ops (freshSMT D)) = (0, 0) := by
  have gen : ∀ (l : List Op) (s : SMT),
      (s.nmap = [] → rootC s = (0, 0)) →
      ((runOps H l s).nmap = [] → rootC (runOps H l s) = (0, 0)) := by
    intro l
    induction l with
    | nil => intro s h; exact h
    | cons op rest ih =>
      intro s h
      exact ih (stepOp H s op) (stepOp_pres H s op h)
  exact gen ops (freshSMT D) (fun _ => rfl)

/-- Witness for the amended C9 on a concrete run. -/
theorem c9_empty_store_implies_zero_root_witness :
    rootC (runOps Hc [Op.get 1, Op.del 2] (freshSMT 2)) = (0, 0) :=
  c9_empty_store_implies_zero_root Hc 2 [Op.get 1, Op.del 2] (by decide)

/-- Claim C9, counterexample: with the constant-zero hash function — a
legal constructor argument in big-number mode — the reachable state after
`add(3, 5); add(2, 7)` on a depth-2 tree has a nonempty node store while
its root object reads (ZERO, ZERO), refuting the claimed equivalence. -/
theorem c9_zero_hash_counterexample :
    rootC (runOps H0 [Op.add 3 5, Op.add 2 7] (freshSMT 2)) = (0, 0) ∧
    (runOps H0 [Op.add 3 5, Op.add 2 7] (freshSMT 2)).nmap ≠ [] := by
  constructor
  · rfl
  · decide

end SMTree
